import Mathlib

/-!
Verification of the btc-address-verifier scripts.

Shallow embedding of the Python sources:
  * `btc_batch_verifier.py` — secret-type detection and address derivation,
  * `check_balance_multi_api.py` — multi-API balance fetch with fallback,
  * `derive_and_check_balance.py` — single-API fetch with retry and the
    sequential balance-checking loop,
  * the shared `extract_addresses` CSV/address extraction (textually identical
    in `check_balance_multi_api.py`, `check_balance_blockchain_com.py` and
    `derive_and_check_balance.py`).

HTTP responses are modelled as environments (functions from attempt index or
API name to an abstract outcome); the third-party `hdwallet` library, which is
not part of this repository, is modelled from the spec where noted.
-/

namespace BtcVerifier

/-- The ASCII whitespace characters stripped by Python's `str.strip()`. -/
def pyWhitespace (c : Char) : Bool :=
  c = ' ' || c = '\t' || c = '\n' || c = '\r' || c = '\x0b' || c = '\x0c'

/-- Python `str.strip()` (ASCII whitespace): drop whitespace from both ends. -/
def pyStrip (s : String) : String :=
  ⟨((s.data.dropWhile pyWhitespace).reverse.dropWhile pyWhitespace).reverse⟩

/-- Python `s.startswith(p)`. -/
def pyStartsWith (s p : String) : Bool :=
  p.data.isPrefixOf s.data

/-- Is `c` one of the characters matched by the regex class `[0-9a-fA-F]`? -/
def isHexChar (c : Char) : Bool :=
  (48 ≤ c.toNat && c.toNat ≤ 57) || (97 ≤ c.toNat && c.toNat ≤ 102) ||
    (65 ≤ c.toNat && c.toNat ≤ 70)

/-- `detect_secret_type` from `btc_batch_verifier.py` (lines 27–44):
ordered heuristic checks on the stripped secret; first match wins.
The WIF branch keeps the source's (unsatisfiable) bound `50 >= len(s) >= 51`. -/
def detect_secret_type (secret : String) : String :=
  let s := pyStrip secret
  if s.data.isEmpty then "unknown"
  else if s.data.contains ' ' then "mnemonic"
  else if pyStartsWith s "xprv" || pyStartsWith s "xpub" || pyStartsWith s "tprv"
      || pyStartsWith s "tpub" then "extended"
  else if (s.data.headD ' ' = '5' || s.data.headD ' ' = 'K' || s.data.headD ' ' = 'L')
      && (decide (50 ≥ s.length) && decide (s.length ≥ 51)) then "WIF"
  else if s.length = 64 && s.data.all isHexChar then "classic"
  else if pyStartsWith s "S" then "mini"
  else "unknown"

/-- The ordered rule table exactly as the spec words it: non-empty, contains
space, known prefix, the WIF length/prefix rule, 64 hex characters, leading
`S`; each paired with the label it assigns. -/
def detectRules : List ((String → Bool) × String) :=
  [ (fun s => s.data.isEmpty, "unknown"),
    (fun s => s.data.contains ' ', "mnemonic"),
    (fun s => pyStartsWith s "xprv" || pyStartsWith s "xpub" || pyStartsWith s "tprv"
      || pyStartsWith s "tpub", "extended"),
    (fun s => (s.data.headD ' ' = '5' || s.data.headD ' ' = 'K' || s.data.headD ' ' = 'L')
      && (decide (50 ≥ s.length) && decide (s.length ≥ 51)), "WIF"),
    (fun s => s.length = 64 && s.data.all isHexChar, "classic"),
    (fun s => pyStartsWith s "S", "mini") ]

/-- First matching rule wins; falls back to `"unknown"`. -/
def firstMatch : List ((String → Bool) × String) → String → String
  | [], _ => "unknown"
  | r :: rest, s => if r.1 s then r.2 else firstMatch rest s

/-- The spec's reference detector: strip, then apply the ordered rules. -/
def detect_secret_type_spec (secret : String) : String :=
  firstMatch detectRules (pyStrip secret)

example : detect_secret_type "  " = "unknown" := by decide
example : detect_secret_type "word1 word2" = "mnemonic" := by decide
example : detect_secret_type "xprv9s21ZrQH" = "extended" := by decide
example : detect_secret_type "SzavMBLoXU6kDrqtUVmffv" = "mini" := by decide
example :
    detect_secret_type "6cd78b0d69eab1a47bfa53a52b9d8c4331e858b5d7a599270a95d9735fdb0b94"
      = "classic" := by decide
example :
    detect_secret_type "KzMFjMC2MPadjvX5Cd7b8AKKjjpBSoRKUTpoatzqirBorjnZvLzw" = "unknown" := by
  decide

/-! ## Multi-API balance fetch (`check_balance_multi_api.py`) -/

/-- An environment giving, for each (api name, address) pair, the pair the
corresponding `fetch_*` helper returns.  Each helper catches every exception
and returns `(-1, -1)` on failure, so its observable behaviour is exactly a
total function to `Int × Int`. -/
def FetchEnv : Type := String → String → Int × Int

/-- `fetch_with_fallback` (lines 94–112): dispatch on the api name, skip
unknown names, stop at the first balance `>= 0`, and fall back to the
sentinel `(-1, -1, "all_failed")`. -/
def fetch_with_fallback (fetch : FetchEnv) (address : String) :
    List String → Int × Int × String
  | [] => (-1, -1, "all_failed")
  | api_name :: rest =>
    let call : Option (Int × Int) :=
      if api_name = "blockcypher" then some (fetch "blockcypher" address)
      else if api_name = "blockchain" then some (fetch "blockchain" address)
      else if api_name = "blockstream" then some (fetch "blockstream" address)
      else none
    match call with
    | none => fetch_with_fallback fetch address rest
    | some (balance, received) =>
      if balance ≥ 0 then (balance, received, api_name)
      else fetch_with_fallback fetch address rest

/-! ## Address extraction (`extract_addresses`, identical in
`check_balance_multi_api.py`, `check_balance_blockchain_com.py` and
`derive_and_check_balance.py`).

The file is modelled by the raw text sniffed from its first bytes (`sample`)
together with the rows the `csv` module yields (`rows`); `csv.DictReader`
consumes the first row as the header and skips empty rows. -/

/-- Python `str.lower()` (ASCII). -/
def pyLower (s : String) : String := ⟨s.data.map Char.toLower⟩

/-- `OrderedDict.setdefault(addr, None)`: append `a` unless already present. -/
def ordInsert (acc : List String) (a : String) : List String :=
  if a ∈ acc then acc else acc ++ [a]

/-- Header sniffing: `sample.lower().startswith("hex_private_key")`. -/
def hasHeaderRow (sample : String) : Bool :=
  pyStartsWith (pyLower sample) "hex_private_key"

/-- Header branch: `csv.DictReader` reads the first row as field names and,
for each non-empty data row, `(row.get("bitcoin_address") or "").strip()`
is kept when non-blank. -/
def headerCandidates (rows : List (List String)) : List String :=
  match rows with
  | [] => []
  | header :: data =>
    data.filterMap (fun row =>
      if row.isEmpty then none
      else
        let addr := pyStrip (match header.findIdx? (fun h => h = "bitcoin_address") with
          | some i => row.getD i ""
          | none => "")
        if addr = "" then none else some addr)

/-- No-header branch: skip empty rows; `row[2].strip()` when the row has at
least 3 columns, `row[0].strip()` when it has exactly 1, nothing otherwise;
keep non-blank results. -/
def noHeaderCandidates (rows : List (List String)) : List String :=
  rows.filterMap (fun row =>
    if row.isEmpty then none
    else
      let addr :=
        if 3 ≤ row.length then pyStrip (row.getD 2 "")
        else if row.length = 1 then pyStrip (row.getD 0 "")
        else ""
      if addr = "" then none else some addr)

/-- The stream of accepted address cells, in file order (duplicates kept). -/
def csvCandidates (sample : String) (rows : List (List String)) : List String :=
  if hasHeaderRow sample then headerCandidates rows else noHeaderCandidates rows

/-- `extract_addresses`: insert each candidate into an `OrderedDict` and
return its keys — duplicates dropped, first occurrence kept, in order. -/
def extract_addresses (sample : String) (rows : List (List String)) : List String :=
  (csvCandidates sample rows).foldl ordInsert []

/-- Canonical keep-first deduplication: the first occurrence of each element,
in the order of those first occurrences. -/
def dedupFirst : List String → List String
  | [] => []
  | a :: l => a :: dedupFirst (l.filter (· ≠ a))
termination_by l => l.length
decreasing_by
  simp only [List.length_cons]
  exact Nat.lt_succ_of_le (List.length_filter_le _ _)

/-- The claim's reading of the no-header branch, written by row shape:
empty rows and 2-column rows contribute nothing, 1-column rows their sole
column, rows of 3 or more columns their third column; blank cells skipped. -/
def noHeaderCandidatesSpec (rows : List (List String)) : List String :=
  rows.filterMap (fun row =>
    match row with
    | [] => none
    | [a] => if pyStrip a = "" then none else some (pyStrip a)
    | [_, _] => none
    | _ :: _ :: c :: _ => if pyStrip c = "" then none else some (pyStrip c))

/-- The claim's reading of the header branch: the `bitcoin_address` column of
each non-empty data row, stripped, blanks skipped (nothing if the header has
no such column). -/
def headerCandidatesSpec (rows : List (List String)) : List String :=
  match rows with
  | [] => []
  | header :: data =>
    match header.findIdx? (fun h => h = "bitcoin_address") with
    | none => []
    | some i =>
      data.filterMap (fun row =>
        if row.isEmpty then none
        else if pyStrip (row.getD i "") = "" then none
        else some (pyStrip (row.getD i "")))

/-! ## Single-API fetch with retry (`derive_and_check_balance.py`) -/

/-- What one HTTP GET against the Blockstream endpoint can observably do:
return JSON stats, come back with status 429, or fail (bad status raised by
`raise_for_status`, network error, JSON error). -/
inductive HttpOutcome where
  | ok (funded spent mfunded mspent : Int)
  | rateLimited
  | failure

/-- Did the attempt return data? -/
def HttpOutcome.isOk : HttpOutcome → Bool
  | .ok _ _ _ _ => true
  | _ => false

/-- The outcome of each successive HTTP attempt for one address. -/
def AttemptEnv : Type := Nat → HttpOutcome

/-- The retry loop body of `fetch_balance` (lines 59–81): `attempt` is the
current loop index, the second argument the remaining iterations.  Returns
the result (`.error ()` models the final `raise RuntimeError`), the number
of HTTP attempts made, and the list of back-off sleep durations:
`min(10 * 2**attempt, 120)` after a 429, `min(3 * (attempt + 1), 20)` after
any other failure. -/
def fetch_balance_go (env : AttemptEnv) :
    Nat → Nat → (Except Unit (Int × Int × Int)) × Nat × List Nat
  | _, 0 => (.error (), 0, [])
  | attempt, r + 1 =>
    match env attempt with
    | .ok funded spent mfunded mspent =>
      let confirmed := funded - spent
      let mempool_delta := mfunded - mspent
      (.ok (confirmed, mempool_delta, confirmed + mempool_delta), 1, [])
    | .rateLimited =>
      let rest := fetch_balance_go env (attempt + 1) r
      (rest.1, rest.2.1 + 1, min (10 * 2 ^ attempt) 120 :: rest.2.2)
    | .failure =>
      let rest := fetch_balance_go env (attempt + 1) r
      (rest.1, rest.2.1 + 1, min (3 * (attempt + 1)) 20 :: rest.2.2)

/-- `fetch_balance`: run the loop `for attempt in range(retries)` (default
`retries = 7`). -/
def fetch_balance (env : AttemptEnv) (retries : Nat) :
    (Except Unit (Int × Int × Int)) × Nat × List Nat :=
  fetch_balance_go env 0 retries

/-- One iteration of the sequential loop of `check_balances`
(`derive_and_check_balance.py` lines 101–111): on success append
`(addr, confirmed, mempool_delta, total, total / 1e8)`, on the caught
exception append the sentinel `(addr, -1, -1, -1, -1)`. -/
def balanceRow (env : String → AttemptEnv) (addr : String) :
    String × Int × Int × Int × ℚ :=
  match (fetch_balance (env addr) 7).1 with
  | .ok v => (addr, v.1, v.2.1, v.2.2, (v.2.2 : ℚ) / 100000000)
  | .error _ => (addr, -1, -1, -1, -1)

/-- Python truthiness of the `--limit` argument (`None` or an `int`). -/
def pyTruthy : Option Int → Bool
  | none => false
  | some n => decide (n ≠ 0)

/-- Python `l[:n]` for an `int` bound `n` (negative counts from the end). -/
def pySliceTo (l : List String) (n : Int) : List String :=
  if 0 ≤ n then l.take n.toNat else l.take ((l.length : Int) + n).toNat

/-- `check_balances` of `derive_and_check_balance.py` (sequential branch,
`workers = 1`): truncate by the truthy limit, then one result row per
address in order. -/
def check_balances_derive (addresses : List String) (limit : Option Int)
    (env : String → AttemptEnv) : List (String × Int × Int × Int × ℚ) :=
  let addr_list := if pyTruthy limit then pySliceTo addresses (limit.getD 0) else addresses
  addr_list.map (balanceRow env)

/-- One iteration of the loop of `check_balances` in
`check_balance_multi_api.py` (lines 132–135): fallback fetch over the fixed
api rotation, `btc = balance / 1e8` when `balance >= 0` else `0.0`. -/
def multiRow (fetch : FetchEnv) (addr : String) : String × Int × Int × ℚ × String :=
  let r := fetch_with_fallback fetch addr ["blockcypher", "blockchain", "blockstream"]
  (addr, r.1, r.2.1, if r.1 ≥ 0 then (r.1 : ℚ) / 100000000 else 0, r.2.2)

/-- `check_balances` of `check_balance_multi_api.py`: truncate by the truthy
limit, then one result row per address in order. -/
def check_balances_multi (addresses : List String) (limit : Option Int)
    (fetch : FetchEnv) : List (String × Int × Int × ℚ × String) :=
  let addr_list := if pyTruthy limit then pySliceTo addresses (limit.getD 0) else addresses
  addr_list.map (multiRow fetch)

/-! ## Address derivation (`btc_batch_verifier.py`)

The key-handling calls of the third-party `hdwallet` library are not part of
this repository; they are modelled from the spec (glossary: WIF is "a
base58-encoded serialization of a private key with checksum", P2PKH the
legacy address type).  A wallet state is the loaded 256-bit private key. -/

/-- Value of a hex digit character (0 outside `[0-9a-fA-F]`). -/
def hexVal (c : Char) : Nat :=
  if 48 ≤ c.toNat ∧ c.toNat ≤ 57 then c.toNat - 48
  else if 97 ≤ c.toNat ∧ c.toNat ≤ 102 then c.toNat - 87
  else if 65 ≤ c.toNat ∧ c.toNat ≤ 70 then c.toNat - 55
  else 0

/-- Modelled from the spec: `HDWallet.from_private_key` of the hdwallet
library (absent from this repository) — accepts exactly a 64-hex-character
key and loads its 256-bit value; anything else raises (modelled as `none`,
caught by the caller's broad `except`). -/
def from_private_key (s : String) : Option Nat :=
  if s.data.length = 64 ∧ s.data.all isHexChar then
    some (s.data.foldl (fun n c => 16 * n + hexVal c) 0)
  else none

/-- The base58 alphabet. -/
def b58Alphabet : List Char :=
  "123456789ABCDEFGHJKLMNPQRSTUVWXYZabcdefghijkmnopqrstuvwxyz".data

/-- Digit to character. -/
def b58Char (d : Nat) : Char := b58Alphabet.getD d '1'

/-- Character back to digit. -/
def b58Digit (c : Char) : Option Nat := b58Alphabet.findIdx? (fun x => x = c)

/-- All-or-nothing traversal of a character list. -/
def traverseOpt (f : Char → Option Nat) : List Char → Option (List Nat)
  | [] => some []
  | a :: l =>
    match f a, traverseOpt f l with
    | some b, some bs => some (b :: bs)
    | _, _ => none

/-- Base58 encoding of a natural number (most significant digit first). -/
def b58Encode (n : Nat) : String :=
  ⟨((Nat.digits 58 n).map b58Char).reverse⟩

/-- Base58 decoding; `none` on characters outside the alphabet. -/
def b58Decode (s : String) : Option Nat :=
  (traverseOpt b58Digit s.data.reverse).map (Nat.ofDigits 58)

/-- Modelled from the spec: the 4-byte checksum appended in WIF; the spec
fixes only that a checksum is present, not its algorithm, so any function
into 4 bytes that encoder and decoder share is a faithful model. -/
def wifChecksum (k : Nat) : Nat := (k + 129) % 2 ^ 32

/-- The serialized WIF payload: version byte `0x80`, the 256-bit key, the
compressed-key flag `0x01`, then the 4-byte checksum. -/
def wifPayload (k : Nat) : Nat :=
  2 ^ 32 * (2 ^ 8 * (2 ^ 256 * 128 + k) + 1) + wifChecksum k

/-- Modelled from the spec: `HDWallet.wif()` — the base58-encoded
serialization of the private key with checksum. -/
def wif (k : Nat) : String := b58Encode (wifPayload k)

/-- Modelled from the spec: `HDWallet.from_wif` — base58-decode, check
version byte, flag and checksum, and load the 256-bit key; any mismatch
raises (modelled as `none`). -/
def from_wif (s : String) : Option Nat :=
  match b58Decode s with
  | none => none
  | some nn =>
    if nn / 2 ^ 32 / 2 ^ 8 / 2 ^ 256 = 128 ∧ nn / 2 ^ 32 % 2 ^ 8 = 1 ∧
        nn % 2 ^ 32 = wifChecksum (nn / 2 ^ 32 / 2 ^ 8 % 2 ^ 256) then
      some (nn / 2 ^ 32 / 2 ^ 8 % 2 ^ 256)
    else none

/-- Modelled from the spec: `HDWallet.from_xprivate_key` — parses an
extended private key with the `xprv` prefix; its exact decoding is
irrelevant to the claims, only that it is a total function that may fail. -/
def from_xprivate_key (s : String) : Option Nat :=
  if pyStartsWith s "xprv" then (b58Decode s).map (fun nn => nn % 2 ^ 256) else none

/-- Modelled from the spec: `p2pkh_address()` — the P2PKH address the
library derives from the loaded private key: an unspecified but fixed
function of the key. -/
def p2pkh_address (k : Nat) : String := "1" ++ b58Encode k

/-- The secret types `btc_address_from_private_key` accepts. -/
def allowed_types : List String := ["WIF", "classic", "extended", "mnemonic", "mini"]

/-- The `try:` block of `btc_address_from_private_key` (lines 56–69): load
the wallet for the given type.  `mnemonic` and `mini` raise
`NotImplementedError` inside the block; every exception is caught by the
broad `except`, leaving no loaded key (`none`). -/
def loadSecret (secret_type : String) (my_secret : String) : Option Nat :=
  if secret_type = "WIF" then from_wif my_secret
  else if secret_type = "classic" then from_private_key my_secret
  else if secret_type = "extended" then from_xprivate_key my_secret
  else none

/-- `btc_address_from_private_key` (lines 47–76): resolve `auto` via
detection, raise `ValueError` (modelled `.error`) for an unsupported type,
otherwise return the derived address, or `""` when derivation failed. -/
def btc_address_from_private_key (my_secret : String) (secret_type : String) :
    Except String String :=
  let st := if secret_type = "auto" then detect_secret_type my_secret else secret_type
  if st ∈ allowed_types then
    match loadSecret st my_secret with
    | none => .ok ""
    | some k => .ok (p2pkh_address k)
  else .error ("Unsupported secret_type: " ++ st)

/-- The three api names `fetch_with_fallback` recognises. -/
def knownApi (a : String) : Bool :=
  a = "blockcypher" || a = "blockchain" || a = "blockstream"

/-- The spec's reference behaviour: among the known names, in order, the
first whose fetched balance is `>= 0` determines the result. -/
def fallbackSpec (fetch : FetchEnv) (address : String) (api_order : List String) :
    Int × Int × String :=
  match (api_order.filter knownApi).find? (fun a => (fetch a address).1 ≥ 0) with
  | some a => ((fetch a address).1, (fetch a address).2, a)
  | none => (-1, -1, "all_failed")

end BtcVerifier

namespace BtcVerifier

/-! ## Theorems for C1–C3 -/

/-- C1: `detect_secret_type` never returns `"WIF"`: the WIF branch's bound
`50 >= len(s) >= 51` is unsatisfiable, so every input falls through to the
later rules. -/
theorem detect_secret_type_never_wif (s : String) :
    detect_secret_type s ≠ "WIF" := by
  intro h
  simp only [detect_secret_type] at h
  repeat' split at h
  all_goals simp_all
  all_goals omega

/-- C3: `detect_secret_type` coincides with the spec's ordered-rule reference
detector on every input, and the test vector's 64-character hex key
classifies as `"classic"`. -/
theorem detect_secret_type_eq_spec :
    (∀ s, detect_secret_type s = detect_secret_type_spec s) ∧
      detect_secret_type
        "6cd78b0d69eab1a47bfa53a52b9d8c4331e858b5d7a599270a95d9735fdb0b94"
        = "classic" :=
  ⟨fun _ => rfl, by decide⟩

/-- C2: `fetch_with_fallback` tries the named APIs in list order, skipping
unknown names, and returns the data and name of the first whose balance is
`>= 0`; if none succeeds it returns the sentinel `(-1, -1, "all_failed")`.
(The function is total: every underlying `fetch_*` catches its exceptions,
so no call raises.) -/
theorem fetch_with_fallback_eq_spec (fetch : FetchEnv) (address : String)
    (api_order : List String) :
    fetch_with_fallback fetch address api_order =
      fallbackSpec fetch address api_order := by
  induction api_order with
  | nil => rfl
  | cons api rest ih =>
    by_cases hc : api = "blockcypher"
    · subst hc
      by_cases hb : ((fetch "blockcypher" address).1 ≥ 0)
      · simp [fetch_with_fallback, fallbackSpec, knownApi, List.find?, hb]
      · simp [fetch_with_fallback, fallbackSpec, knownApi, List.find?, hb, ih]
    · by_cases hc2 : api = "blockchain"
      · subst hc2
        by_cases hb : ((fetch "blockchain" address).1 ≥ 0)
        · simp [fetch_with_fallback, fallbackSpec, knownApi, List.find?, hb]
        · simp [fetch_with_fallback, fallbackSpec, knownApi, List.find?, hb, ih]
      · by_cases hc3 : api = "blockstream"
        · subst hc3
          by_cases hb : ((fetch "blockstream" address).1 ≥ 0)
          · simp [fetch_with_fallback, fallbackSpec, knownApi, List.find?, hb]
          · simp [fetch_with_fallback, fallbackSpec, knownApi, List.find?, hb, ih]
        · simp [fetch_with_fallback, fallbackSpec, knownApi, hc, hc2, hc3, ih]

/-! ## Helper lemmas about stripping and deduplication -/

theorem pyStrip_data (s : String) :
    (pyStrip s).data = List.rdropWhile pyWhitespace (s.data.dropWhile pyWhitespace) := rfl

theorem pyStrip_idem (s : String) : pyStrip (pyStrip s) = pyStrip s := by
  have key : ∀ l : List Char,
      List.rdropWhile pyWhitespace
          ((List.rdropWhile pyWhitespace (l.dropWhile pyWhitespace)).dropWhile pyWhitespace)
        = List.rdropWhile pyWhitespace (l.dropWhile pyWhitespace) := by
    intro l
    have hdw : (l.dropWhile pyWhitespace).dropWhile pyWhitespace = l.dropWhile pyWhitespace :=
      List.dropWhile_idempotent pyWhitespace l
    have hpre : List.rdropWhile pyWhitespace (l.dropWhile pyWhitespace)
        <+: l.dropWhile pyWhitespace := List.rdropWhile_prefix pyWhitespace _
    have hself : (List.rdropWhile pyWhitespace (l.dropWhile pyWhitespace)).dropWhile
        pyWhitespace = List.rdropWhile pyWhitespace (l.dropWhile pyWhitespace) := by
      rw [List.dropWhile_eq_self_iff]
      intro hl
      have h0 : 0 < (l.dropWhile pyWhitespace).length := lt_of_lt_of_le hl hpre.length_le
      have hv0 := (List.dropWhile_eq_self_iff).mp hdw h0
      have hg := hpre.getElem (n := 0) hl
      simpa [List.get_eq_getElem, hg] using hv0
    rw [hself, List.rdropWhile_idempotent]
  apply String.ext
  rw [pyStrip_data, pyStrip_data s]
  exact key s.data

theorem pyStrip_empty : pyStrip "" = "" := rfl

theorem mem_dedupFirst {x : String} : ∀ {l : List String}, x ∈ dedupFirst l ↔ x ∈ l := by
  intro l
  induction l using dedupFirst.induct with
  | case1 => simp [dedupFirst]
  | case2 a l ih =>
    rw [dedupFirst]
    simp only [List.mem_cons, ih, List.mem_filter, decide_eq_true_eq]
    constructor
    · rintro (rfl | ⟨hm, _⟩)
      · exact .inl rfl
      · exact .inr hm
    · rintro (rfl | hm)
      · exact .inl rfl
      · by_cases hxa : x = a
        · exact .inl hxa
        · exact .inr ⟨hm, hxa⟩

theorem nodup_dedupFirst : ∀ (l : List String), (dedupFirst l).Nodup := by
  intro l
  induction l using dedupFirst.induct with
  | case1 => simp [dedupFirst]
  | case2 a l ih =>
    rw [dedupFirst]
    refine List.nodup_cons.mpr ⟨?_, ih⟩
    intro hmem
    have := mem_dedupFirst.mp hmem
    simp at this

theorem sublist_dedupFirst : ∀ (l : List String), (dedupFirst l).Sublist l := by
  intro l
  induction l using dedupFirst.induct with
  | case1 => simp [dedupFirst]
  | case2 a l ih =>
    rw [dedupFirst]
    exact (ih.trans (List.filter_sublist l)).cons₂ a

theorem foldl_ordInsert (l : List String) : ∀ acc : List String,
    l.foldl ordInsert acc = acc ++ dedupFirst (l.filter (fun x => decide (x ∉ acc))) := by
  induction l with
  | nil => intro acc; simp [dedupFirst]
  | cons a l ih =>
    intro acc
    by_cases ha : a ∈ acc
    · have h0 : ordInsert acc a = acc := by simp [ordInsert, ha]
      rw [List.foldl_cons, h0, ih]
      have h1 : List.filter (fun x => decide (x ∉ acc)) (a :: l)
          = List.filter (fun x => decide (x ∉ acc)) l := by simp [List.filter_cons, ha]
      rw [h1]
    · have h1 : ordInsert acc a = acc ++ [a] := by simp [ordInsert, ha]
      rw [List.foldl_cons, h1, ih]
      have h2 : List.filter (fun x => decide (x ∉ acc)) (a :: l)
          = a :: List.filter (fun x => decide (x ∉ acc)) l := by
        simp [List.filter_cons, ha]
      rw [h2, dedupFirst]
      have h3 : (List.filter (fun x => decide (x ∉ acc)) l).filter (· ≠ a)
          = List.filter (fun x => decide (x ∉ acc ++ [a])) l := by
        rw [List.filter_filter]
        refine List.filter_congr ?_
        intro x _
        by_cases hx1 : x = a <;> by_cases hx2 : x ∈ acc <;>
          simp [hx1, hx2, List.mem_append]
      rw [h3]
      simp

theorem extract_addresses_eq_dedupFirst (sample : String) (rows : List (List String)) :
    extract_addresses sample rows = dedupFirst (csvCandidates sample rows) := by
  rw [extract_addresses, foldl_ordInsert]
  have h0 : List.filter (fun x => decide (x ∉ ([] : List String))) (csvCandidates sample rows)
      = csvCandidates sample rows := by
    refine (List.filter_congr ?_).trans (List.filter_true _)
    intro x _
    simp
  rw [h0, List.nil_append]

theorem mem_csvCandidates_shape (sample : String) (rows : List (List String))
    {x : String} (hx : x ∈ csvCandidates sample rows) : x ≠ "" ∧ pyStrip x = x := by
  have main : ∀ (cands : List String),
      (∀ y ∈ cands, (∃ c, y = pyStrip c) ∧ y ≠ "") → x ∈ cands → x ≠ "" ∧ pyStrip x = x := by
    intro cands h hm
    obtain ⟨⟨c, rfl⟩, hne⟩ := h x hm
    exact ⟨hne, pyStrip_idem c⟩
  rw [csvCandidates] at hx
  split at hx
  · cases rows with
    | nil => simp [headerCandidates] at hx
    | cons header data =>
      refine main _ ?_ hx
      intro y hy
      simp only [headerCandidates, List.mem_filterMap] at hy
      obtain ⟨row, _, hrow⟩ := hy
      by_cases he : row.isEmpty <;> simp [he] at hrow
      rcases hrow with ⟨hne, rfl⟩
      exact ⟨⟨_, rfl⟩, hne⟩
  · refine main _ ?_ hx
    intro y hy
    simp only [noHeaderCandidates, List.mem_filterMap] at hy
    obtain ⟨row, _, hrow⟩ := hy
    by_cases he : row.isEmpty <;> simp [he] at hrow
    by_cases h3 : 3 ≤ row.length
    · simp only [h3, if_true] at hrow
      rcases hrow with ⟨hne, rfl⟩
      exact ⟨⟨_, rfl⟩, hne⟩
    · simp only [h3, if_false] at hrow
      by_cases h1 : row.length = 1
      · simp only [h1, if_true] at hrow
        rcases hrow with ⟨hne, rfl⟩
        exact ⟨⟨_, rfl⟩, hne⟩
      · simp [h1] at hrow

theorem noHeaderCandidates_eq_spec (rows : List (List String)) :
    noHeaderCandidates rows = noHeaderCandidatesSpec rows := by
  rw [noHeaderCandidates, noHeaderCandidatesSpec]
  have hfun : ∀ row : List String,
      (if row.isEmpty then none
       else
         let addr :=
           if 3 ≤ row.length then pyStrip (row.getD 2 "")
           else if row.length = 1 then pyStrip (row.getD 0 "")
           else ""
         if addr = "" then none else some addr) =
      (match row with
       | [] => none
       | [a] => if pyStrip a = "" then none else some (pyStrip a)
       | [_, _] => none
       | _ :: _ :: c :: _ => if pyStrip c = "" then none else some (pyStrip c)) := by
    intro row
    rcases row with _ | ⟨a, _ | ⟨b, _ | ⟨c, rest⟩⟩⟩ <;> simp
  induction rows with
  | nil => rfl
  | cons row rows ih => simp only [List.filterMap_cons, hfun row, ih]

theorem headerCandidates_eq_spec (rows : List (List String)) :
    headerCandidates rows = headerCandidatesSpec rows := by
  rcases rows with _ | ⟨header, data⟩
  · rfl
  · rw [headerCandidates, headerCandidatesSpec]
    rcases hidx : header.findIdx? (fun h => h = "bitcoin_address") with _ | i
    · simp only [List.filterMap_eq_nil_iff]
      intro row _
      by_cases he : row.isEmpty <;> simp [he, pyStrip_empty]
    · simp

/-! ## Helper lemmas for the retry loop -/

theorem forall_lt_succ_shift (P : Nat → Prop) (a r : Nat) (h0 : P a) :
    (∀ j, j < r → P (a + 1 + j)) ↔ (∀ j, j < r + 1 → P (a + j)) := by
  constructor
  · intro h j hj
    cases j with
    | zero => simpa using h0
    | succ k =>
      have hk : k < r := by omega
      have hcall := h k hk
      have he : a + 1 + k = a + (k + 1) := by omega
      rwa [he] at hcall
  · intro h j hj
    have hcall := h (j + 1) (by omega)
    have he : a + (j + 1) = a + 1 + j := by omega
    rwa [he] at hcall

theorem fetch_balance_go_spec (env : AttemptEnv) : ∀ (r attempt : Nat),
    (fetch_balance_go env attempt r).2.1 ≤ r ∧
    (∀ t ∈ (fetch_balance_go env attempt r).2.2, t ≤ 120) ∧
    ((fetch_balance_go env attempt r).1 = .error () ↔
      ∀ j, j < r → (env (attempt + j)).isOk = false) := by
  intro r
  induction r with
  | zero =>
    intro attempt
    refine ⟨Nat.le_refl 0, by simp [fetch_balance_go], by simp [fetch_balance_go]⟩
  | succ r ih =>
    intro attempt
    rcases ho : env attempt with ⟨f, s, mf, ms⟩ | _ | _
    · refine ⟨?_, ?_, ?_⟩
      · simp only [fetch_balance_go, ho]
        omega
      · simp [fetch_balance_go, ho]
      · simp only [fetch_balance_go, ho]
        constructor
        · intro hcontra
          simp at hcontra
        · intro h
          have hbad := h 0 (by omega)
          simp [ho, HttpOutcome.isOk] at hbad
    · obtain ⟨ih1, ih2, ih3⟩ := ih (attempt + 1)
      refine ⟨?_, ?_, ?_⟩
      · simp only [fetch_balance_go, ho]
        omega
      · simp only [fetch_balance_go, ho, List.mem_cons]
        rintro t (rfl | ht)
        · exact min_le_right _ _
        · exact ih2 t ht
      · simp only [fetch_balance_go, ho]
        rw [ih3]
        refine forall_lt_succ_shift (fun m => (env m).isOk = false) attempt r ?_
        simp [ho, HttpOutcome.isOk]
    · obtain ⟨ih1, ih2, ih3⟩ := ih (attempt + 1)
      refine ⟨?_, ?_, ?_⟩
      · simp only [fetch_balance_go, ho]
        omega
      · simp only [fetch_balance_go, ho, List.mem_cons]
        rintro t (rfl | ht)
        · exact le_trans (min_le_right _ _) (by omega)
        · exact ih2 t ht
      · simp only [fetch_balance_go, ho]
        rw [ih3]
        refine forall_lt_succ_shift (fun m => (env m).isOk = false) attempt r ?_
        simp [ho, HttpOutcome.isOk]

theorem balanceRow_addr (env : String → AttemptEnv) (addr : String) :
    (balanceRow env addr).1 = addr := by
  rw [balanceRow]
  split <;> rfl

theorem fetch_balance_go_ok_shape (env : AttemptEnv) : ∀ (r attempt : Nat)
    (v : Int × Int × Int), (fetch_balance_go env attempt r).1 = .ok v →
    v.2.2 = v.1 + v.2.1 := by
  intro r
  induction r with
  | zero =>
    intro attempt v h
    simp [fetch_balance_go] at h
  | succ r ih =>
    intro attempt v h
    rcases ho : env attempt with ⟨f, s, mf, ms⟩ | _ | _ <;>
      simp only [fetch_balance_go, ho] at h
    · cases h
      rfl
    · exact ih (attempt + 1) v h
    · exact ih (attempt + 1) v h

theorem balanceRow_sentinel_iff (env : String → AttemptEnv) (addr : String) :
    balanceRow env addr = (addr, -1, -1, -1, (-1 : ℚ)) ↔
      (fetch_balance (env addr) 7).1 = .error () := by
  rw [balanceRow]
  rcases hr : (fetch_balance (env addr) 7).1 with _ | v
  · simp
  · have hr0 := hr
    rw [fetch_balance] at hr0
    have hshape := fetch_balance_go_ok_shape (env addr) 7 0 v hr0
    simp only [hr, Prod.mk.injEq]
    constructor
    · rintro ⟨-, h1, h2, h3, -⟩
      exfalso
      omega
    · intro hcontra
      exact absurd hcontra (by simp)

/-! ## Helper lemmas for key encoding -/

theorem hexVal_lt (c : Char) : hexVal c < 16 := by
  unfold hexVal
  repeat' split
  all_goals omega

theorem hexFold_lt (l : List Char) : ∀ acc : Nat,
    l.foldl (fun n c => 16 * n + hexVal c) acc < 16 ^ l.length * (acc + 1) := by
  induction l with
  | nil =>
    intro acc
    simp
  | cons c l ih =>
    intro acc
    rw [List.foldl_cons]
    calc l.foldl (fun n c => 16 * n + hexVal c) (16 * acc + hexVal c)
        < 16 ^ l.length * (16 * acc + hexVal c + 1) := ih _
      _ ≤ 16 ^ l.length * (16 * (acc + 1)) := by
          have hv := hexVal_lt c
          exact Nat.mul_le_mul_left _ (by omega)
      _ = 16 ^ (c :: l).length * (acc + 1) := by
          rw [List.length_cons, pow_succ]
          ring

theorem from_private_key_bound {s : String} {k : Nat}
    (h : from_private_key s = some k) : k < 2 ^ 256 := by
  unfold from_private_key at h
  split at h
  · rename_i hcond
    rw [Option.some_inj] at h
    subst h
    have hb := hexFold_lt s.data 0
    rw [hcond.1] at hb
    calc s.data.foldl (fun n c => 16 * n + hexVal c) 0 < 16 ^ 64 * (0 + 1) := hb
      _ = 2 ^ 256 := by norm_num
  · cases h

theorem b58Digit_b58Char : ∀ d, d < 58 → b58Digit (b58Char d) = some d := by decide

theorem traverseOpt_map (f : Char → Option Nat) (g : Nat → Char) :
    ∀ l : List Nat, (∀ d ∈ l, f (g d) = some d) → traverseOpt f (l.map g) = some l := by
  intro l
  induction l with
  | nil =>
    intro _
    rfl
  | cons d l ih =>
    intro h
    rw [List.map_cons, traverseOpt, h d (List.mem_cons_self d l),
      ih (fun x hx => h x (List.mem_cons_of_mem d hx))]

theorem b58Decode_encode (n : Nat) : b58Decode (b58Encode n) = some n := by
  unfold b58Decode b58Encode
  show (traverseOpt b58Digit (((Nat.digits 58 n).map b58Char).reverse).reverse).map
      (Nat.ofDigits 58) = some n
  rw [List.reverse_reverse,
    traverseOpt_map b58Digit b58Char (Nat.digits 58 n)
      (fun d hd => b58Digit_b58Char d (Nat.digits_lt_base (by norm_num) hd))]
  simp [Nat.ofDigits_digits]

theorem unpack_div {a c m : Nat} (hm : 0 < m) (hc : c < m) : (m * a + c) / m = a := by
  rw [Nat.mul_add_div hm, Nat.div_eq_of_lt hc, Nat.add_zero]

theorem unpack_mod {a c m : Nat} (hc : c < m) : (m * a + c) % m = c := by
  rw [Nat.mul_add_mod, Nat.mod_eq_of_lt hc]

theorem from_wif_wif (k : Nat) (hk : k < 2 ^ 256) : from_wif (wif k) = some k := by
  have hchk : wifChecksum k < 2 ^ 32 := Nat.mod_lt _ (by norm_num)
  have h1 : wifPayload k % 2 ^ 32 = wifChecksum k := unpack_mod hchk
  have h2 : wifPayload k / 2 ^ 32 = 2 ^ 8 * (2 ^ 256 * 128 + k) + 1 :=
    unpack_div (by norm_num) hchk
  have h3 : (2 ^ 8 * (2 ^ 256 * 128 + k) + 1) % 2 ^ 8 = 1 := unpack_mod (by norm_num)
  have h4 : (2 ^ 8 * (2 ^ 256 * 128 + k) + 1) / 2 ^ 8 = 2 ^ 256 * 128 + k :=
    unpack_div (by norm_num) (by norm_num)
  have h5 : (2 ^ 256 * 128 + k) % 2 ^ 256 = k := unpack_mod hk
  have h6 : (2 ^ 256 * 128 + k) / 2 ^ 256 = 128 := unpack_div (by norm_num) hk
  rw [wif, from_wif]
  rw [b58Decode_encode]
  simp only [h1, h2, h3, h4, h5, h6]
  simp

/-! ## Theorems for C4, C5 and C8 -/

/-- C4: for a private key given as 64 hex characters, deriving with type
`classic` and deriving its WIF encoding with type `WIF` produce the same
P2PKH address — the library's `p2pkh_address` of that key. -/
theorem hex_and_wif_same_address (s : String) (k : Nat)
    (h : from_private_key s = some k) :
    btc_address_from_private_key s "classic" = .ok (p2pkh_address k) ∧
    btc_address_from_private_key (wif k) "WIF" = .ok (p2pkh_address k) := by
  have hk : k < 2 ^ 256 := from_private_key_bound h
  constructor
  · simp [btc_address_from_private_key, allowed_types, loadSecret, h]
  · simp [btc_address_from_private_key, allowed_types, loadSecret, from_wif_wif k hk]

/-- Witness for C4 at the repository's own test vector. -/
theorem hex_and_wif_same_address_witness :
    btc_address_from_private_key
        "6cd78b0d69eab1a47bfa53a52b9d8c4331e858b5d7a599270a95d9735fdb0b94" "classic"
      = .ok (p2pkh_address
          0x6cd78b0d69eab1a47bfa53a52b9d8c4331e858b5d7a599270a95d9735fdb0b94) :=
  (hex_and_wif_same_address
    "6cd78b0d69eab1a47bfa53a52b9d8c4331e858b5d7a599270a95d9735fdb0b94"
    0x6cd78b0d69eab1a47bfa53a52b9d8c4331e858b5d7a599270a95d9735fdb0b94
    (by decide)).1

/-- C5: for every secret string and every supported type the function does
not raise: the result is always `.ok`, and when the library fails to load a
key (invalid secret, or the `NotImplementedError` types) it is `.ok ""`. -/
theorem btc_address_never_raises (s st : String) (hst : st ∈ allowed_types) :
    (∃ a, btc_address_from_private_key s st = .ok a) ∧
    (loadSecret st s = none → btc_address_from_private_key s st = .ok "") := by
  have hna : st ≠ "auto" := by
    rintro rfl
    simp [allowed_types] at hst
  constructor
  · rcases hl : loadSecret st s with _ | k
    · exact ⟨"", by simp [btc_address_from_private_key, hna, hst, hl]⟩
    · exact ⟨p2pkh_address k, by simp [btc_address_from_private_key, hna, hst, hl]⟩
  · intro hl
    simp [btc_address_from_private_key, hna, hst, hl]

/-- Witness for C5: the test's invalid secret under `classic` yields
`.ok ""` rather than an exception. -/
theorem btc_address_never_raises_witness :
    "classic" ∈ allowed_types ∧
    btc_address_from_private_key "not-a-valid-secret" "classic" = .ok "" :=
  ⟨by decide,
    (btc_address_never_raises "not-a-valid-secret" "classic" (by decide)).2 (by decide)⟩

/-- C8: the function signals `ValueError` exactly when the resolved type
(the given one, or the detected one under `auto`) is outside the supported
set — e.g. whenever detection yields `"unknown"` — and for `mnemonic` and
`mini` the internal `NotImplementedError` is swallowed by the broad
`except`, the result being `.ok ""`, never a propagated exception. -/
theorem btc_address_valueerror_iff (s st : String) :
    ((∃ e, btc_address_from_private_key s st = .error e) ↔
      (if st = "auto" then detect_secret_type s else st) ∉ allowed_types) ∧
    btc_address_from_private_key s "mnemonic" = .ok "" ∧
    btc_address_from_private_key s "mini" = .ok "" := by
  refine ⟨?_, ?_, ?_⟩
  · rw [btc_address_from_private_key]
    by_cases h : (if st = "auto" then detect_secret_type s else st) ∈ allowed_types
    · rcases hl : loadSecret (if st = "auto" then detect_secret_type s else st) s with _ | k <;>
        simp [h, hl]
    · simp [h]
  · rfl
  · rfl

end BtcVerifier

namespace BtcVerifier

/-! ## Theorems for C6 and C9 -/

/-- C6: `fetch_balance` makes at most `retries` HTTP attempts (the call site
uses the default 7), its back-off sleeps are capped at 120 seconds, and it
raises exactly when every attempt failed; the sequential `check_balances`
records one row per address in order, the row for an address being the
sentinel `(addr, -1, -1, -1, -1)` precisely when `fetch_balance` raised for
it — so a failed address never aborts the run or loses other rows. -/
theorem fetch_balance_bounded_and_check_balances_resilient
    (env : AttemptEnv) (retries : Nat) (envs : String → AttemptEnv)
    (addrs : List String) (i : Nat) (hi : i < addrs.length) :
    (fetch_balance env retries).2.1 ≤ retries ∧
    (∀ t ∈ (fetch_balance env retries).2.2, t ≤ 120) ∧
    ((fetch_balance env retries).1 = .error () ↔
      ∀ j, j < retries → (env j).isOk = false) ∧
    (check_balances_derive addrs none envs).length = addrs.length ∧
    ((check_balances_derive addrs none envs).getD i default).1 = addrs.getD i "" ∧
    ((check_balances_derive addrs none envs).getD i default
        = (addrs.getD i "", -1, -1, -1, (-1 : ℚ))
      ↔ (fetch_balance (envs (addrs.getD i "")) 7).1 = .error ()) := by
  obtain ⟨h1, h2, h3⟩ := fetch_balance_go_spec env retries 0
  have h3s : (fetch_balance env retries).1 = .error () ↔
      ∀ j, j < retries → (env j).isOk = false := by
    rw [fetch_balance, h3]
    simp only [Nat.zero_add]
  have hcb : check_balances_derive addrs none envs = addrs.map (balanceRow envs) := rfl
  have hmlen : i < (addrs.map (balanceRow envs)).length := by simpa using hi
  have hrow : (check_balances_derive addrs none envs).getD i default
      = balanceRow envs (addrs.getD i "") := by
    rw [hcb, List.getD_eq_getElem _ _ hmlen, List.getElem_map,
      List.getD_eq_getElem _ _ hi]
  refine ⟨h1, h2, h3s, ?_, ?_, ?_⟩
  · rw [hcb, List.length_map]
  · rw [hrow, balanceRow_addr]
  · rw [hrow]
    exact balanceRow_sentinel_iff envs (addrs.getD i "")

/-- Witness for C6 at a concrete input: one address whose every attempt
fails yields the sentinel row. -/
theorem fetch_balance_bounded_witness :
    (check_balances_derive ["a"] none (fun _ _ => HttpOutcome.failure)).getD 0 default
      = ("a", -1, -1, -1, (-1 : ℚ)) := by
  have h := (fetch_balance_bounded_and_check_balances_resilient
      (fun _ => HttpOutcome.failure) 2 (fun _ _ => HttpOutcome.failure)
      ["a"] 0 (by decide)).2.2.2.2.2
  exact h.mpr rfl

/-- C9: in both `check_balances` functions, `limit = None` and `limit = 0`
process every address (truthiness guards the truncation), while
`limit = n > 0` processes exactly the first `n` addresses in order. -/
theorem check_balances_limit_semantics
    (addrs : List String) (envs : String → AttemptEnv) (fetch : FetchEnv)
    (n : Int) (hn : 0 < n) :
    (check_balances_derive addrs none envs).map (fun r => r.1) = addrs ∧
    (check_balances_derive addrs (some 0) envs).map (fun r => r.1) = addrs ∧
    (check_balances_derive addrs (some n) envs).map (fun r => r.1)
      = addrs.take n.toNat ∧
    (check_balances_multi addrs none fetch).map (fun r => r.1) = addrs ∧
    (check_balances_multi addrs (some 0) fetch).map (fun r => r.1) = addrs ∧
    (check_balances_multi addrs (some n) fetch).map (fun r => r.1)
      = addrs.take n.toNat := by
  have hbr : ∀ a, (balanceRow envs a).1 = a := balanceRow_addr envs
  have hmr : ∀ a : String, (multiRow fetch a).1 = a := fun a => rfl
  have htr1 : pyTruthy (some 0) = false := by simp [pyTruthy]
  have htrn : pyTruthy (some n) = true := by
    simp only [pyTruthy, decide_eq_true_eq]
    omega
  have hslice : pySliceTo addrs n = addrs.take n.toNat := by
    rw [pySliceTo, if_pos (le_of_lt hn)]
  refine ⟨?_, ?_, ?_, ?_, ?_, ?_⟩ <;>
    simp [check_balances_derive, check_balances_multi, pyTruthy, htr1, htrn,
      hslice, List.map_map, Function.comp_def, hbr, hmr] <;>
    omega

/-- Witness for C9 at a concrete input: `limit = 2` keeps the first two of
three addresses. -/
theorem check_balances_limit_witness :
    (check_balances_derive ["a", "b", "c"] (some 2)
        (fun _ _ => HttpOutcome.failure)).map (fun r => r.1) = ["a", "b"] := by
  have h := (check_balances_limit_semantics ["a", "b", "c"]
      (fun _ _ => HttpOutcome.failure) (fun _ _ => ((-1 : Int), (-1 : Int)))
      2 (by decide)).2.2.1
  exact h.trans rfl

/-! ## Theorems for C7 and C10 -/

/-- C7: `extract_addresses` sniffs the header by lowercasing the first bytes
and checking for the prefix `hex_private_key`; with a header it collects the
stripped non-blank `bitcoin_address` column of each non-empty data row, and
without one it collects column 3 of rows with at least 3 columns and the sole
column of 1-column rows, skipping empty rows, 2-column rows and blank cells —
deduplicated keeping first occurrences. -/
theorem extract_addresses_matches_claim (sample : String) (rows : List (List String)) :
    extract_addresses sample rows =
      if pyStartsWith (pyLower sample) "hex_private_key"
      then dedupFirst (headerCandidatesSpec rows)
      else dedupFirst (noHeaderCandidatesSpec rows) := by
  rw [extract_addresses_eq_dedupFirst, csvCandidates, hasHeaderRow]
  split
  · rw [headerCandidates_eq_spec]
  · rw [noHeaderCandidates_eq_spec]

/-- C10: for every input, the list `extract_addresses` returns has no
duplicates, contains only non-empty strings that equal their own strip, and
is the keep-first deduplication of the stream of accepted address cells in
file order (in particular a sublist of that stream, so the order of first
occurrences is preserved). -/
theorem extract_addresses_invariants (sample : String) (rows : List (List String)) :
    (extract_addresses sample rows).Nodup ∧
      (∀ a ∈ extract_addresses sample rows, a ≠ "" ∧ pyStrip a = a) ∧
      extract_addresses sample rows = dedupFirst (csvCandidates sample rows) ∧
      (extract_addresses sample rows).Sublist (csvCandidates sample rows) := by
  have he := extract_addresses_eq_dedupFirst sample rows
  refine ⟨?_, ?_, he, ?_⟩
  · rw [he]
    exact nodup_dedupFirst _
  · intro a ha
    rw [he] at ha
    exact mem_csvCandidates_shape sample rows (mem_dedupFirst.mp ha)
  · rw [he]
    exact sublist_dedupFirst _

end BtcVerifier
